import Mathlib

/-!
# stress-test: admission control, outcome recording and validation

A shallow embedding of `cmd/root.go`.

* Go `int` counters are integers reduced with `wrap64` after every `++`.
* A Go `map[int]int` is an association list with distinct keys; reading an
  absent key gives the zero value and assigning to it adds the entry.
* The network is outside the program: what `client.Get` and `io.ReadAll`
  deliver for one attempt is an `Attempt` value.
* The command line is taken after flag parsing, as the flags that appear on it
  with their values (`Flags`); `Execute` runs `PreRun`, the check of the flag
  group registered at line 55, and `Run`, in that order.
* `makeRequest` is embedded twice from the same lines: as a function (one call
  run from start to end without interference) and, inside `step`, as the
  sequence of shared-memory accesses of a goroutine, so that the interleavings
  of `processStressTest` can be examined.
-/

namespace StressTest

/-! ## Machine integers -/

/-- Largest value of a Go `int` on a 64-bit platform. -/
def maxInt : Int := 9223372036854775807

/-- Smallest value of a Go `int` on a 64-bit platform. -/
def minInt : Int := -9223372036854775808

/-- Two's-complement reduction of an integer to the Go `int` range. -/
def wrap64 (x : Int) : Int := (x + 9223372036854775808) % 18446744073709551616 - 9223372036854775808

/-- Go `x++` on an `int`. -/
def incr (x : Int) : Int := wrap64 (x + 1)

/-! ## The map `statusOther` -/

/-- Go `map[int]int`, as a list of entries. -/
abbrev StatusMap := List (Int × Int)

/-- Lookup that distinguishes an absent key: the `v, ok := m[k]` form. -/
def StatusMap.get? : StatusMap → Int → Option Int
  | [], _ => none
  | (k', v) :: t, k => if k' = k then some v else StatusMap.get? t k

/-- Go `m[k]` as an expression: the zero value for an absent key. -/
def StatusMap.index (m : StatusMap) (k : Int) : Int := (m.get? k).getD 0

/-- Go `m[k] = v`: overwrite the entry of `k`, or add it. -/
def StatusMap.assign : StatusMap → Int → Int → StatusMap
  | [], k, v => [(k, v)]
  | (k', v') :: t, k, v => if k' = k then (k', v) :: t else (k', v') :: StatusMap.assign t k v

/-- Sum of all values stored in the map. -/
def StatusMap.total (m : StatusMap) : Int := (m.map Prod.snd).sum

/-- Keys present in the map. -/
def StatusMap.keys (m : StatusMap) : List Int := m.map Prod.fst

/-! ## The report -/

/-- Go `type Report struct`; `totalTime` is a `time.Duration`, an `int64` of nanoseconds. -/
structure Report where
  totalRequests : Int
  status200 : Int
  statusOther : StatusMap
  totalTime : Int
  deriving DecidableEq, Repr

/-- The value `&Report{statusOther: make(map[int]int)}` of `processStressTest`. -/
def Report.empty : Report :=
  { totalRequests := 0, status200 := 0, statusOther := [], totalTime := 0 }

/-- Go `http.StatusOK`. -/
def StatusOK : Int := 200

/-- What the network delivers for one attempt: `client.Get` returns an error, or a
response with a status code whose body then fails to read, or a response with a
status code whose body is read to the end. -/
inductive Attempt where
  | getFailed
  | readFailed (statusCode : Int)
  | completed (statusCode : Int)
  deriving DecidableEq, Repr

/-- Whether the attempt hit one of the two error returns of `makeRequest`. -/
def Attempt.failed : Attempt → Bool
  | .getFailed => true
  | .readFailed _ => true
  | .completed _ => false

/-- The update section of `makeRequest`, lines 114-119. -/
def record (statusCode : Int) (report : Report) : Report :=
  let report := { report with totalRequests := incr report.totalRequests }
  if statusCode = StatusOK then
    { report with status200 := incr report.status200 }
  else
    { report with
      statusOther := report.statusOther.assign statusCode (incr (report.statusOther.index statusCode)) }

/-- One call of `makeRequest` run without interference: both error paths
return before the report is touched. -/
def makeRequest (a : Attempt) (report : Report) : Report :=
  match a with
  | .getFailed => report
  | .readFailed _ => report
  | .completed statusCode => record statusCode report

/-- Calls of `makeRequest` one after another on the same report. -/
def recordAll (as : List Attempt) (report : Report) : Report :=
  as.foldl (fun r a => makeRequest a r) report

/-- One line written by `printReport`, with the values it formats. -/
inductive Line where
  | text (s : String)
  | execTime (d : Int)
  | total (n : Int)
  | ok (n : Int)
  | status (code : Int) (count : Int)
  deriving DecidableEq, Repr

/-- The lines of `printReport`; the map is ranged over in representation order
(Go leaves the order open). -/
def printReport (report : Report) : List Line :=
  [ Line.text "\nTest Report",
    Line.text "-------------------",
    Line.execTime report.totalTime,
    Line.total report.totalRequests,
    Line.ok report.status200,
    Line.text "Distribution of other HTTP status codes:" ]
  ++ report.statusOther.map (fun e => Line.status e.1 e.2)

/-! ## Validation -/

/-- The command line after flag parsing: for each flag the value given, or
`none` when the flag does not appear on it. -/
structure Flags where
  url : Option String
  requests : Option Int
  concurrency : Option Int
  deriving DecidableEq, Repr

/-- The package variables bound to the flags `--url`, `--requests`, `--concurrency`. -/
structure Config where
  url : String
  requests : Int
  concurrency : Int
  deriving DecidableEq, Repr

/-- The variables once the flags are parsed: the value given on the command
line, or the default registered in `init`, lines 51-53. -/
def Flags.vars (f : Flags) : Config :=
  { url := f.url.getD "", requests := f.requests.getD 10, concurrency := f.concurrency.getD 1 }

/-- How the command ends or goes on: `PreRun` prints a message and the help and
exits with a code; the check of the flag group fails, the flags missing from
the group are reported and `Execute` exits with a code; or `Run` calls
`processStressTest` with the three arguments. -/
inductive Command where
  | exit (message : String) (help : Bool) (code : Int)
  | flagGroupError (missing : List String) (code : Int)
  | processStressTest (url : String) (requests : Int) (concurrency : Int)
  deriving DecidableEq, Repr

/-- The function `PreRun` of `rootCmd`, lines 26-37: `some` when it exits the
process, `none` when it returns. -/
def PreRun (c : Config) : Option Command :=
  if c.url = "" then
    some (Command.exit "URL is required" true 1)
  else if c.requests < c.concurrency then
    some (Command.exit "Number of requests should be greater than concurrency" true 1)
  else
    none

/-- Modelled from the spec: the check that the command-line library makes for
the group registered at line 55, `MarkFlagsRequiredTogether("requests", "url")`;
the library is not part of the repository. The two flags are jointly required:
when one appears on the command line without the other, the missing ones are
reported; when both or neither appear, nothing is. -/
def missingTogether (f : Flags) : List String :=
  match f.requests, f.url with
  | none, some _ => ["requests"]
  | some _, none => ["url"]
  | _, _ => []

/-- The function `Run` of `rootCmd`, lines 38-40. -/
def Run (c : Config) : Command :=
  Command.processStressTest c.url c.requests c.concurrency

/-- The function `Execute`, lines 43-48, on the parsed command line: the
library calls `PreRun`, then checks the flag group of line 55, then calls
`Run`; when the check fails `rootCmd.Execute` returns the error and line 46
exits with code 1. -/
def Execute (f : Flags) : Command :=
  match PreRun f.vars with
  | some c => c
  | none =>
    match missingTogether f with
    | [] => Run f.vars
    | missing => Command.flagGroupError missing 1

/-! ## The dispatch of `processStressTest` as a transition system

The main goroutine and every spawned goroutine advance one shared-memory or
synchronisation action at a time; a schedule is the list of who moves next.
Go's memory model lets a racing read of a word-sized variable observe any
write that is not ordered after it, so `x++` on a field of the report is a
read followed by a write.
-/

/-- Program counter of a spawned goroutine: the closure of lines 79-83 with the
body of `makeRequest` inlined. -/
inductive Pc where
  /-- Lines 81, 98-109: the call is waiting for the network. -/
  | request
  /-- Lines 111-112: `var mutex sync.Mutex; mutex.Lock()`. -/
  | lock (code : Int)
  /-- Line 114, the read of `report.totalRequests`. -/
  | loadTotal (code : Int)
  /-- Line 114, the write of `report.totalRequests`. -/
  | storeTotal (code : Int) (seen : Int)
  /-- Lines 115-118, the read of `report.status200` or `report.statusOther[code]`. -/
  | loadStatus (code : Int)
  /-- Lines 116/118, the write of the counter read before. -/
  | storeStatus (code : Int) (seen : Int)
  /-- Line 113, the deferred `mutex.Unlock()`. -/
  | unlock
  /-- Line 82: `<-semaphore`. -/
  | receive
  /-- Line 80, the deferred `wg.Done()`. -/
  | wgDone
  | exited
  deriving DecidableEq, Repr

/-- A spawned goroutine: its program counter and the mutex declared at line
111, a local variable of its own call of `makeRequest`. -/
structure Goroutine where
  pc : Pc
  mutex : Bool
  deriving DecidableEq, Repr

/-- Program counter of the function `processStressTest` itself. -/
inductive MainPc where
  /-- Line 76: the loop test, then `wg.Add(1)` of line 77. -/
  | loop
  /-- Line 78: `semaphore <- struct{}{}`. -/
  | send
  /-- Line 79: the `go` statement, then `i++`. -/
  | spawn
  /-- Line 86: `wg.Wait()`. -/
  | wait
  /-- Lines 87-89 are done: the report has been printed. -/
  | finished
  /-- Line 74: `make(chan struct{}, concurrency)` with a negative size panics. -/
  | panicked
  deriving DecidableEq, Repr

/-- Shared state of one run of `processStressTest`. -/
structure State where
  report : Report
  /-- Number of elements buffered in the channel `semaphore`. -/
  semaphore : Nat
  /-- Counter of the wait group. -/
  wg : Int
  /-- Loop variable of line 76. -/
  i : Int
  main : MainPc
  /-- Goroutines spawned so far, in spawn order. -/
  goroutines : List Goroutine
  deriving DecidableEq, Repr

/-- What lies outside the program: the outcome the network gives the k-th
attempt, and the duration `time.Since(startTime)` reads at line 87. -/
structure Env where
  net : Nat → Attempt
  elapsed : Int

/-- Who moves next. `handoff k` is the rendezvous of an unbuffered channel: the
send of line 78 meets the receive of goroutine `k`. -/
inductive Event where
  | main
  | go (k : Nat)
  | handoff (k : Nat)
  deriving DecidableEq, Repr

/-- Replace goroutine `k`. -/
def State.setG (s : State) (k : Nat) (g : Goroutine) : State :=
  { s with goroutines := s.goroutines.set k g }

/-- State at line 76 before the first iteration: empty report, empty channel of
capacity `concurrency`, `i = 0`. -/
def processStressTest.init (concurrency : Int) : State :=
  { report := Report.empty, semaphore := 0, wg := 0, i := 0,
    main := if concurrency < 0 then MainPc.panicked else MainPc.loop,
    goroutines := [] }

/-- One action of the main goroutine; `none` when it is blocked or has ended.
The `i++` of line 76 runs only when `i < requests`, so it cannot overflow. -/
def processStressTest.stepMain (requests concurrency : Int) (env : Env) (s : State) : Option State :=
  match s.main with
  | .loop =>
    if s.i < requests then some { s with wg := s.wg + 1, main := .send }
    else some { s with main := .wait }
  | .send =>
    if (s.semaphore : Int) < concurrency then
      some { s with semaphore := s.semaphore + 1, main := .spawn }
    else none
  | .spawn =>
    some { s with goroutines := s.goroutines ++ [{ pc := .request, mutex := false }],
                  i := s.i + 1, main := .loop }
  | .wait =>
    if s.wg = 0 then
      some { s with report := { s.report with totalTime := env.elapsed }, main := .finished }
    else none
  | .finished => none
  | .panicked => none

/-- One action of goroutine `k` (the body of `makeRequest`, then lines 82 and
80); `none` when it does not exist, is blocked or has ended. -/
def makeRequest.step (env : Env) (s : State) (k : Nat) : Option State :=
  match s.goroutines[k]? with
  | none => none
  | some g =>
    match g.pc with
    | .request =>
      match env.net k with
      | .getFailed => some (s.setG k { g with pc := .receive })
      | .readFailed _ => some (s.setG k { g with pc := .receive })
      | .completed code => some (s.setG k { g with pc := .lock code })
    | .lock code =>
      if g.mutex then none
      else some (s.setG k { pc := .loadTotal code, mutex := true })
    | .loadTotal code =>
      some (s.setG k { g with pc := .storeTotal code s.report.totalRequests })
    | .storeTotal code seen =>
      some ({ s with report := { s.report with totalRequests := incr seen } }.setG k
        { g with pc := .loadStatus code })
    | .loadStatus code =>
      if code = StatusOK then
        some (s.setG k { g with pc := .storeStatus code s.report.status200 })
      else
        some (s.setG k { g with pc := .storeStatus code (s.report.statusOther.index code) })
    | .storeStatus code seen =>
      if code = StatusOK then
        some ({ s with report := { s.report with status200 := incr seen } }.setG k
          { g with pc := .unlock })
      else
        some ({ s with report := { s.report with
                  statusOther := s.report.statusOther.assign code (incr seen) } }.setG k
          { g with pc := .unlock })
    | .unlock => some (s.setG k { pc := .receive, mutex := false })
    | .receive =>
      if 0 < s.semaphore then
        some ({ s with semaphore := s.semaphore - 1 }.setG k { g with pc := .wgDone })
      else none
    | .wgDone => some ({ s with wg := s.wg - 1 }.setG k { g with pc := .exited })
    | .exited => none

/-- One step of the whole program under the given event. -/
def processStressTest.step (requests concurrency : Int) (env : Env) (s : State) :
    Event → Option State
  | .main => processStressTest.stepMain requests concurrency env s
  | .go k => makeRequest.step env s k
  | .handoff k =>
    match s.main, s.goroutines[k]? with
    | .send, some g =>
      if concurrency = 0 ∧ g.pc = Pc.receive then
        some ({ s with main := .spawn }.setG k { g with pc := .wgDone })
      else none
    | _, _ => none

/-- Run a schedule from a state; `none` when some event is not enabled. -/
def processStressTest.exec (requests concurrency : Int) (env : Env) :
    State → List Event → Option State
  | s, [] => some s
  | s, e :: es =>
    match processStressTest.step requests concurrency env s e with
    | none => none
    | some s' => processStressTest.exec requests concurrency env s' es

/-- Run a schedule from the initial state of `processStressTest`. -/
def processStressTest.run (requests concurrency : Int) (env : Env) (es : List Event) : Option State :=
  processStressTest.exec requests concurrency env (processStressTest.init concurrency) es

/-- The goroutine holds a slot: it was started and has not passed line 82. -/
def Goroutine.holdsSlot (g : Goroutine) : Bool :=
  match g.pc with
  | .wgDone => false
  | .exited => false
  | _ => true

/-- The goroutine is between `mutex.Lock()` and `mutex.Unlock()`. -/
def Goroutine.inUpdate (g : Goroutine) : Bool :=
  match g.pc with
  | .loadTotal _ => true
  | .storeTotal _ _ => true
  | .loadStatus _ => true
  | .storeStatus _ _ => true
  | .unlock => true
  | _ => false

/-- Number of attempts started and not yet past the release of their slot. -/
def State.executing (s : State) : Nat := s.goroutines.countP Goroutine.holdsSlot

/-- Schedule that runs goroutine `k` alone from its start to its end when its
attempt completes: nine actions. -/
def soloOk (k : Nat) : List Event := List.replicate 9 (Event.go k)

/-- Schedule that runs goroutine `k` alone from its start to its end when its
attempt fails: three actions. -/
def soloFail (k : Nat) : List Event := List.replicate 3 (Event.go k)

/-! ## Predicates, environments and schedules used in the statements -/

/-- Two reports that print the same: equal counters and the same mapping. -/
def Report.Same (r r' : Report) : Prop :=
  r.totalRequests = r'.totalRequests ∧ r.status200 = r'.status200 ∧
  (∀ k, StatusMap.get? r.statusOther k = StatusMap.get? r'.statusOther k) ∧
  r.totalTime = r'.totalTime

/-- A report reached by `n` or fewer calls of `makeRequest` from the empty one:
the counters agree, count no more than `n`, and the map holds distinct keys
other than 200 with values of at least 1. -/
structure Report.Counted (r : Report) (n : Int) : Prop where
  total_eq : r.totalRequests = r.status200 + StatusMap.total r.statusOther
  ok_nonneg : 0 ≤ r.status200
  values_pos : ∀ e ∈ r.statusOther, 1 ≤ e.2
  no_ok_key : StatusOK ∉ StatusMap.keys r.statusOther
  keys_nodup : (StatusMap.keys r.statusOther).Nodup
  total_le : r.totalRequests ≤ n

/-- Number of attempts of a list that reached the update section. -/
def completedCount (as : List Attempt) : Nat := as.countP (fun a => !a.failed)

/-- The admission invariant: the channel buffer counts exactly the goroutines
that hold a slot, plus the slot taken at line 78 for the goroutine about to be
spawned, and never exceeds the capacity. -/
def Admitted (concurrency : Int) (s : State) : Prop :=
  s.semaphore = s.executing + (if s.main = MainPc.spawn then 1 else 0) ∧
  (s.semaphore : Int) ≤ concurrency

/-- The program counter is outside the section of `makeRequest` that follows
the two error returns. -/
def Pc.outside : Pc → Bool
  | .request => true
  | .receive => true
  | .wgDone => true
  | .exited => true
  | _ => false

/-- Nothing has been recorded and no goroutine is past the error returns. -/
def Untouched (s : State) : Prop :=
  s.report.totalRequests = 0 ∧ s.report.status200 = 0 ∧ s.report.statusOther = [] ∧
  ∀ g ∈ s.goroutines, g.pc.outside = true

/-- Schedule that runs goroutine `k` alone from its start to its end. -/
def soloOf (env : Env) (k : Nat) : List Event :=
  if (env.net k).failed then soloFail k else soloOk k

/-- Schedule of the first `k` iterations, one attempt at a time: lines 76-79
by the main goroutine, then goroutine `k` alone. -/
def seqSchedule (env : Env) : Nat → List Event
  | 0 => []
  | k + 1 => seqSchedule env k ++ ([Event.main, Event.main, Event.main] ++ soloOf env k)

/-- State between two iterations when every earlier goroutine has ended. -/
def idleState (r : Report) (k : Nat) : State :=
  { report := r, semaphore := 0, wg := 0, i := k, main := MainPc.loop,
    goroutines := List.replicate k { pc := Pc.exited, mutex := false } }

/-- State right after goroutine `k` has been spawned while every earlier one
has ended. -/
def spawnedState (r : Report) (k : Nat) : State :=
  { report := r, semaphore := 1, wg := 1, i := (k : Int) + 1, main := MainPc.loop,
    goroutines := List.replicate k { pc := Pc.exited, mutex := false } ++
      [{ pc := Pc.request, mutex := false }] }

/-- Outcomes of the first `k` attempts, in spawn order. -/
def outcomes (env : Env) (k : Nat) : List Attempt := (List.range k).map env.net

/-- An environment in which every attempt completes with status 200. -/
def env200 : Env := { net := fun _ => Attempt.completed 200, elapsed := 1 }

/-- An environment in which every attempt fails at transport level. -/
def envDown : Env := { net := fun _ => Attempt.getFailed, elapsed := 1 }

/-- Two goroutines are spawned and each runs up to its write of
`report.totalRequests`: both are between `Lock` and `Unlock`. -/
def overlapSchedule : List Event :=
  List.replicate 6 Event.main ++ List.replicate 3 (Event.go 0) ++ List.replicate 3 (Event.go 1)

/-- Two goroutines are spawned, both read `status200` before either writes it,
then both finish. -/
def raceHead : List Event :=
  List.replicate 6 Event.main ++ List.replicate 5 (Event.go 0) ++ List.replicate 5 (Event.go 1)
    ++ List.replicate 4 (Event.go 0) ++ List.replicate 4 (Event.go 1)

/-- Iterations `k`, `k+1`, ..., `k+m-1` one attempt at a time, every attempt completing. -/
def soloRounds : Nat → Nat → List Event
  | _, 0 => []
  | k, m + 1 => [Event.main, Event.main, Event.main] ++ soloOk k ++ soloRounds (k + 1) m

/-- A complete schedule for `requests = 2`: the race, then the end of the main goroutine. -/
def raceSchedule2 : List Event := raceHead ++ [Event.main, Event.main]

/-- A complete schedule for `requests = 20`, `concurrency = 4`: the race between
the first two attempts, the other eighteen one at a time. -/
def raceSchedule20 : List Event := raceHead ++ soloRounds 2 18 ++ [Event.main, Event.main]

/-- State of the main goroutine blocked at line 78 in the first iteration. -/
def blockedAtSend : State :=
  { report := Report.empty, semaphore := 0, wg := 1, i := 0, main := MainPc.send, goroutines := [] }

/-! ## Lemmas on machine integers and on the map -/

theorem wrap64_of_range {x : Int} (h1 : minInt ≤ x) (h2 : x ≤ maxInt) : wrap64 x = x := by
  unfold wrap64
  unfold minInt at h1
  unfold maxInt at h2
  omega

theorem incr_of_range {x : Int} (h1 : minInt ≤ x) (h2 : x < maxInt) : incr x = x + 1 := by
  unfold incr
  apply wrap64_of_range
  · unfold minInt at *; omega
  · unfold maxInt at *; omega

theorem incr_of_nonneg {x : Int} (h1 : 0 ≤ x) (h2 : x < maxInt) : incr x = x + 1 :=
  incr_of_range (by unfold minInt; omega) h2

theorem StatusMap.get?_assign (m : StatusMap) (k v k' : Int) :
    StatusMap.get? (StatusMap.assign m k v) k' = if k = k' then some v else StatusMap.get? m k' := by
  induction m with
  | nil => simp [StatusMap.assign, StatusMap.get?]
  | cons e t ih =>
    obtain ⟨a, b⟩ := e
    by_cases h : a = k
    · subst h
      by_cases h' : a = k' <;> simp [StatusMap.assign, StatusMap.get?, h']
    · by_cases h' : a = k'
      · subst h'
        simp [StatusMap.assign, StatusMap.get?, h, Ne.symm h]
      · simp [StatusMap.assign, StatusMap.get?, h, h', ih]

theorem StatusMap.index_assign (m : StatusMap) (k v k' : Int) :
    StatusMap.index (StatusMap.assign m k v) k' = if k = k' then v else StatusMap.index m k' := by
  unfold StatusMap.index
  rw [StatusMap.get?_assign]
  split <;> simp

theorem StatusMap.total_assign (m : StatusMap) (k v : Int) :
    StatusMap.total (StatusMap.assign m k v) = StatusMap.total m - StatusMap.index m k + v := by
  induction m with
  | nil => simp [StatusMap.assign, StatusMap.total, StatusMap.index, StatusMap.get?]
  | cons e t ih =>
    obtain ⟨a, b⟩ := e
    by_cases h : a = k
    · simp [StatusMap.assign, StatusMap.total, StatusMap.index, StatusMap.get?, h]
      omega
    · simp only [StatusMap.total, StatusMap.index] at ih
      simp [StatusMap.assign, StatusMap.total, StatusMap.index, StatusMap.get?, h, ih]
      omega

theorem StatusMap.mem_assign {m : StatusMap} {k v : Int} {e : Int × Int}
    (h : e ∈ StatusMap.assign m k v) : e ∈ m ∨ e = (k, v) := by
  induction m with
  | nil => simpa [StatusMap.assign] using h
  | cons e' t ih =>
    obtain ⟨a, b⟩ := e'
    by_cases h' : a = k
    · simp only [StatusMap.assign, h', if_true, List.mem_cons] at h
      rcases h with h | h
      · exact Or.inr h
      · exact Or.inl (List.mem_cons_of_mem _ h)
    · simp only [StatusMap.assign, h', if_false, List.mem_cons] at h
      rcases h with h | h
      · exact Or.inl (h ▸ List.mem_cons_self _ _)
      · rcases ih h with h | h
        · exact Or.inl (List.mem_cons_of_mem _ h)
        · exact Or.inr h

theorem StatusMap.get?_eq_none_iff (m : StatusMap) (k : Int) :
    StatusMap.get? m k = none ↔ k ∉ StatusMap.keys m := by
  induction m with
  | nil => simp [StatusMap.get?, StatusMap.keys]
  | cons e t ih =>
    obtain ⟨a, b⟩ := e
    by_cases h : a = k
    · simp [StatusMap.get?, StatusMap.keys, h]
    · simp only [StatusMap.keys] at ih
      simp [StatusMap.get?, StatusMap.keys, h, ih, Ne.symm h]

theorem StatusMap.index_le_total {m : StatusMap} (h : ∀ e ∈ m, 0 ≤ e.2) (k : Int) :
    StatusMap.index m k ≤ StatusMap.total m ∧ 0 ≤ StatusMap.index m k := by
  induction m with
  | nil => simp [StatusMap.index, StatusMap.total, StatusMap.get?]
  | cons e t ih =>
    obtain ⟨a, b⟩ := e
    have hb : 0 ≤ b := h (a, b) (List.mem_cons_self _ _)
    have ht := ih (fun e he => h e (List.mem_cons_of_mem _ he))
    have htot : 0 ≤ StatusMap.total t := le_trans ht.2 ht.1
    simp only [StatusMap.index, StatusMap.total] at ht htot
    by_cases h' : a = k
    · simp [StatusMap.index, StatusMap.total, StatusMap.get?, h']
      omega
    · simp [StatusMap.index, StatusMap.total, StatusMap.get?, h']
      omega

theorem StatusMap.keys_assign_nodup {m : StatusMap} (h : (StatusMap.keys m).Nodup) (k v : Int) :
    (StatusMap.keys (StatusMap.assign m k v)).Nodup := by
  induction m with
  | nil => simp [StatusMap.assign, StatusMap.keys]
  | cons e t ih =>
    obtain ⟨a, b⟩ := e
    simp only [StatusMap.keys, List.map_cons, List.nodup_cons] at h
    by_cases h' : a = k
    · simp only [StatusMap.assign, h', if_true, StatusMap.keys, List.map_cons, List.nodup_cons]
      exact ⟨h' ▸ h.1, h.2⟩
    · simp only [StatusMap.assign, h', if_false, StatusMap.keys, List.map_cons, List.nodup_cons]
      refine ⟨?_, ih h.2⟩
      intro hmem
      obtain ⟨e, he, hk⟩ := List.mem_map.1 hmem
      rcases StatusMap.mem_assign he with he | he
      · exact h.1 (List.mem_map.2 ⟨e, he, hk⟩)
      · subst he
        exact h' hk.symm

/-! ## Recording outcomes one call at a time -/

theorem record_get? (s : Int) (r : Report) (k : Int) :
    StatusMap.get? (record s r).statusOther k =
      if s = StatusOK then StatusMap.get? r.statusOther k
      else if s = k then some (incr (StatusMap.index r.statusOther s))
      else StatusMap.get? r.statusOther k := by
  unfold record
  by_cases h : s = StatusOK
  · simp [h]
  · simp [h, StatusMap.get?_assign]

theorem same_refl (r : Report) : Report.Same r r := ⟨rfl, rfl, fun _ => rfl, rfl⟩

theorem same_trans {a b c : Report} (h1 : Report.Same a b) (h2 : Report.Same b c) :
    Report.Same a c :=
  ⟨h1.1.trans h2.1, h1.2.1.trans h2.2.1, fun k => (h1.2.2.1 k).trans (h2.2.2.1 k),
    h1.2.2.2.trans h2.2.2.2⟩

theorem record_fields (s : Int) (r : Report) :
    (record s r).totalRequests = incr r.totalRequests ∧
    (record s r).status200 = (if s = StatusOK then incr r.status200 else r.status200) ∧
    (record s r).totalTime = r.totalTime := by
  unfold record
  by_cases h : s = StatusOK <;> simp [h]

theorem record_same {r r' : Report} (h : Report.Same r r') (s : Int) :
    Report.Same (record s r) (record s r') := by
  obtain ⟨h1, h2, h3, h4⟩ := h
  refine ⟨?_, ?_, ?_, ?_⟩
  · rw [(record_fields s r).1, (record_fields s r').1, h1]
  · rw [(record_fields s r).2.1, (record_fields s r').2.1, h2]
  · intro k
    rw [record_get?, record_get?]
    simp only [StatusMap.index, h3]
  · rw [(record_fields s r).2.2, (record_fields s r').2.2, h4]

theorem record_comm (a b : Int) (r : Report) :
    Report.Same (record a (record b r)) (record b (record a r)) := by
  refine ⟨?_, ?_, ?_, ?_⟩
  · simp [(record_fields _ _).1]
  · simp only [(record_fields _ _).2.1]
    by_cases ha : a = StatusOK <;> by_cases hb : b = StatusOK <;> simp [ha, hb]
  · intro k
    simp only [record_get?, StatusMap.index]
    by_cases ha : a = StatusOK <;> by_cases hb : b = StatusOK <;> simp [ha, hb]
    by_cases hak : a = k <;> by_cases hbk : b = k <;> simp [hak, hbk]
  · simp [(record_fields _ _).2.2]

theorem makeRequest_same {r r' : Report} (h : Report.Same r r') (a : Attempt) :
    Report.Same (makeRequest a r) (makeRequest a r') := by
  cases a with
  | getFailed => exact h
  | readFailed c => exact h
  | completed c => exact record_same h c

theorem makeRequest_comm (a b : Attempt) (r : Report) :
    Report.Same (makeRequest a (makeRequest b r)) (makeRequest b (makeRequest a r)) := by
  cases a <;> cases b <;> first | exact same_refl _ | exact record_comm _ _ _

theorem recordAll_same (as : List Attempt) :
    ∀ {r r' : Report}, Report.Same r r' → Report.Same (recordAll as r) (recordAll as r') := by
  induction as with
  | nil => intro r r' h; exact h
  | cons a t ih => intro r r' h; exact ih (makeRequest_same h a)

theorem recordAll_perm {l₁ l₂ : List Attempt} (hp : l₁.Perm l₂) :
    ∀ {r r' : Report}, Report.Same r r' → Report.Same (recordAll l₁ r) (recordAll l₂ r') := by
  induction hp with
  | nil => intro r r' h; exact h
  | cons a _ ih => intro r r' h; exact ih (makeRequest_same h a)
  | swap a b l =>
    intro r r' h
    have h1 : Report.Same (makeRequest a (makeRequest b r)) (makeRequest b (makeRequest a r')) :=
      same_trans (makeRequest_comm a b r) (makeRequest_same (makeRequest_same h a) b)
    exact recordAll_same l h1
  | trans _ _ ih1 ih2 => intro r r' h; exact same_trans (ih1 h) (ih2 (same_refl _))

theorem counted_empty : Report.Counted Report.empty 0 :=
  ⟨by decide, by decide, by simp [Report.empty], by simp [Report.empty, StatusMap.keys],
    by simp [Report.empty, StatusMap.keys], by decide⟩

theorem counted_mono {r : Report} {n m : Int} (h : Report.Counted r n) (hnm : n ≤ m) :
    Report.Counted r m :=
  ⟨h.total_eq, h.ok_nonneg, h.values_pos, h.no_ok_key, h.keys_nodup, le_trans h.total_le hnm⟩

theorem counted_total_nonneg {r : Report} {n : Int} (h : Report.Counted r n) :
    0 ≤ StatusMap.total r.statusOther := by
  have := StatusMap.index_le_total (m := r.statusOther)
    (fun e he => le_trans (by decide) (h.values_pos e he)) 0
  exact le_trans this.2 this.1

theorem counted_step {r : Report} {n : Int} (h : Report.Counted r n) (hn : n < maxInt)
    (s : Int) :
    Report.Counted (record s r) (n + 1) ∧
    (record s r).totalRequests = r.totalRequests + 1 := by
  have htot := counted_total_nonneg h
  have hnn : ∀ e ∈ r.statusOther, 0 ≤ e.2 := fun e he => le_trans (by decide) (h.values_pos e he)
  have hidx := StatusMap.index_le_total hnn s
  have h1 := h.total_eq
  have h2 := h.ok_nonneg
  have h3 := h.total_le
  have hT : incr r.totalRequests = r.totalRequests + 1 := incr_of_nonneg (by omega) (by omega)
  by_cases hs : s = StatusOK
  · have hO : incr r.status200 = r.status200 + 1 := incr_of_nonneg h2 (by omega)
    have e : record s r = { r with totalRequests := r.totalRequests + 1,
                                   status200 := r.status200 + 1 } := by
      simp [record, hs, hT, hO]
    rw [e]
    refine ⟨⟨?_, ?_, h.values_pos, h.no_ok_key, h.keys_nodup, ?_⟩, rfl⟩
    · simp only; omega
    · simp only; omega
    · simp only; omega
  · have hI : incr (StatusMap.index r.statusOther s) = StatusMap.index r.statusOther s + 1 :=
      incr_of_nonneg hidx.2 (by omega)
    have e : record s r =
        { r with
          totalRequests := r.totalRequests + 1,
          statusOther := StatusMap.assign r.statusOther s (StatusMap.index r.statusOther s + 1) } := by
      simp [record, hs, hT, hI]
    rw [e]
    refine ⟨⟨?_, h2, ?_, ?_, StatusMap.keys_assign_nodup h.keys_nodup _ _, ?_⟩, rfl⟩
    · simp only [StatusMap.total_assign]; omega
    · intro e he
      rcases StatusMap.mem_assign he with he | he
      · exact h.values_pos e he
      · subst he; simp only; omega
    · intro hmem
      obtain ⟨e, he, hk⟩ := List.mem_map.1 hmem
      rcases StatusMap.mem_assign he with he | he
      · exact h.no_ok_key (List.mem_map.2 ⟨e, he, hk⟩)
      · subst he; exact hs hk
    · simp only; omega

theorem recordAll_counted (as : List Attempt) :
    ∀ {r : Report} {n : Int}, Report.Counted r n → n + as.length ≤ maxInt →
      Report.Counted (recordAll as r) (n + as.length) ∧
      (recordAll as r).totalRequests = r.totalRequests + completedCount as := by
  induction as with
  | nil => intro r n h _; simpa [recordAll, completedCount] using h
  | cons a t ih =>
    intro r n h hn
    simp only [List.length_cons, Nat.cast_add, Nat.cast_one] at hn
    have hlen : (0 : Int) ≤ t.length := Int.ofNat_nonneg _
    have step : Report.Counted (makeRequest a r) (n + 1) ∧
        (makeRequest a r).totalRequests = r.totalRequests + (if a.failed then 0 else 1) := by
      cases a with
      | getFailed => exact ⟨counted_mono h (by omega), by simp [makeRequest, Attempt.failed]⟩
      | readFailed c => exact ⟨counted_mono h (by omega), by simp [makeRequest, Attempt.failed]⟩
      | completed c =>
        have := counted_step h (by omega) c
        exact ⟨this.1, by simpa [makeRequest, Attempt.failed] using this.2⟩
    have := ih step.1 (by omega)
    have e : recordAll (a :: t) r = recordAll t (makeRequest a r) := rfl
    rw [e]
    refine ⟨?_, ?_⟩
    · have h' := this.1
      simp only [List.length_cons, Nat.cast_add, Nat.cast_one]
      have e2 : n + (↑t.length + 1) = n + 1 + ↑t.length := by omega
      rw [e2]; exact h'
    · rw [this.2, step.2]
      cases hf : a.failed <;> simp [completedCount, List.countP_cons, hf]
      omega

/-- Applied one call at a time, the recorded outcomes add up to the number of
attempts that did not fail: at most the number of attempts, and equal to it
exactly when none failed. -/
theorem sequential_sum (as : List Attempt) (hlen : (as.length : Int) ≤ maxInt) :
    (recordAll as Report.empty).status200 + StatusMap.total (recordAll as Report.empty).statusOther
      = completedCount as ∧
    completedCount as ≤ as.length ∧
    (completedCount as = as.length ↔ ∀ a ∈ as, a.failed = false) := by
  have h := recordAll_counted as counted_empty (by omega)
  refine ⟨?_, List.countP_le_length _, ?_⟩
  · have h1 := h.1.total_eq
    have h2 := h.2
    have h0 : Report.empty.totalRequests = 0 := rfl
    rw [h0, zero_add] at h2
    omega
  · unfold completedCount
    rw [List.countP_eq_length]
    simp

theorem recordAll_replicate_ok (n : Nat) :
    ∀ r : Report, 0 ≤ r.totalRequests → 0 ≤ r.status200 →
      r.totalRequests + n ≤ maxInt → r.status200 + n ≤ maxInt →
      recordAll (List.replicate n (Attempt.completed 200)) r =
        { r with totalRequests := r.totalRequests + n, status200 := r.status200 + n } := by
  induction n with
  | zero => intro r _ _ _ _; simp [recordAll]
  | succ n ih =>
    intro r h1 h2 h3 h4
    push_cast at h3 h4
    have hT : incr r.totalRequests = r.totalRequests + 1 := incr_of_nonneg h1 (by omega)
    have hO : incr r.status200 = r.status200 + 1 := incr_of_nonneg h2 (by omega)
    have e : makeRequest (Attempt.completed 200) r =
        { r with totalRequests := r.totalRequests + 1, status200 := r.status200 + 1 } := by
      simp [makeRequest, record, StatusOK, hT, hO]
    show recordAll (List.replicate n (Attempt.completed 200)) (makeRequest (Attempt.completed 200) r) = _
    rw [e, ih _ (by simp only; omega) (by simp only; omega) (by simp only; omega)
      (by simp only; omega)]
    simp only [Report.mk.injEq, and_true]
    constructor <;> (push_cast; omega)

theorem recordAll_replicate_other (s : Int) (hs : s ≠ 200) (n : Nat) :
    ∀ (t v d : Int), 0 ≤ t → 0 ≤ v → t + n ≤ maxInt → v + n ≤ maxInt →
      recordAll (List.replicate n (Attempt.completed s))
          { totalRequests := t, status200 := 0, statusOther := [(s, v)], totalTime := d } =
        { totalRequests := t + n, status200 := 0, statusOther := [(s, v + n)], totalTime := d } := by
  induction n with
  | zero => intro t v d _ _ _ _; simp [recordAll]
  | succ n ih =>
    intro t v d h1 h2 h3 h4
    push_cast at h3 h4
    have hT : incr t = t + 1 := incr_of_nonneg h1 (by omega)
    have hV : incr v = v + 1 := incr_of_nonneg h2 (by omega)
    have hs' : ¬ s = StatusOK := hs
    have e : makeRequest (Attempt.completed s)
        { totalRequests := t, status200 := 0, statusOther := [(s, v)], totalTime := d } =
        { totalRequests := t + 1, status200 := 0, statusOther := [(s, v + 1)], totalTime := d } := by
      simp [makeRequest, record, hs', hT, hV, StatusMap.assign, StatusMap.index, StatusMap.get?]
    show recordAll (List.replicate n (Attempt.completed s)) (makeRequest (Attempt.completed s) _) = _
    rw [e, ih _ _ _ (by omega) (by omega) (by omega) (by omega)]
    simp only [Report.mk.injEq, List.cons.injEq, Prod.mk.injEq, and_true, true_and]
    constructor <;> (push_cast; omega)

/-- Applied one call at a time, `n ≥ 1` completed attempts with the same status
code give `status200 = n` and an empty map for 200, and `status200 = 0` with
the single entry `s ↦ n` otherwise. -/
theorem sequential_same_status (n : Nat) (hn : 1 ≤ n) (hmax : (n : Int) ≤ maxInt) (s : Int) :
    (s = 200 →
      (recordAll (List.replicate n (Attempt.completed s)) Report.empty).status200 = n ∧
      (recordAll (List.replicate n (Attempt.completed s)) Report.empty).statusOther = []) ∧
    (s ≠ 200 →
      (recordAll (List.replicate n (Attempt.completed s)) Report.empty).status200 = 0 ∧
      (recordAll (List.replicate n (Attempt.completed s)) Report.empty).statusOther =
        [(s, (n : Int))]) := by
  refine ⟨?_, ?_⟩
  · intro hs
    subst hs
    rw [recordAll_replicate_ok n Report.empty (by decide) (by decide)
      (by simp only [Report.empty]; omega) (by simp only [Report.empty]; omega)]
    simp [Report.empty]
  · intro hs
    obtain ⟨m, rfl⟩ : ∃ m, n = m + 1 := ⟨n - 1, by omega⟩
    push_cast at hmax
    have hs' : ¬ s = StatusOK := hs
    have e : makeRequest (Attempt.completed s) Report.empty =
        { totalRequests := 1, status200 := 0, statusOther := [(s, 1)], totalTime := 0 } := by
      have h1 : incr 0 = 1 := by decide
      simp [makeRequest, record, hs', Report.empty, StatusMap.assign, StatusMap.index,
        StatusMap.get?, h1]
    show (recordAll (List.replicate m (Attempt.completed s))
        (makeRequest (Attempt.completed s) Report.empty)).status200 = 0 ∧
      (recordAll (List.replicate m (Attempt.completed s))
        (makeRequest (Attempt.completed s) Report.empty)).statusOther = [(s, ((m + 1 : Nat) : Int))]
    rw [e, recordAll_replicate_other s hs m 1 1 0 (by decide) (by decide) (by omega) (by omega)]
    simp only [List.cons.injEq, Prod.mk.injEq, and_true, true_and]
    push_cast
    omega

/-! ## Invariants of the dispatch -/

open processStressTest

theorem exec_append (n c : Int) (env : Env) (es₁ es₂ : List Event) :
    ∀ s, exec n c env s (es₁ ++ es₂) = (exec n c env s es₁).bind (fun s' => exec n c env s' es₂) := by
  induction es₁ with
  | nil => intro s; rfl
  | cons e t ih =>
    intro s
    simp only [List.cons_append, exec]
    cases h : step n c env s e with
    | none => rfl
    | some s' => simpa using ih s'

/-- A property kept by every enabled step holds along every schedule. -/
theorem exec_induct (n c : Int) (env : Env) (P : State → Prop)
    (hstep : ∀ s e s', P s → step n c env s e = some s' → P s') :
    ∀ (es : List Event) (s s' : State), P s → exec n c env s es = some s' → P s' := by
  intro es
  induction es with
  | nil =>
    intro s s' hP h
    simp only [exec, Option.some.injEq] at h
    exact h ▸ hP
  | cons e t ih =>
    intro s s' hP h
    simp only [exec] at h
    cases hs : step n c env s e with
    | none => simp [hs] at h
    | some s₁ =>
      simp only [hs] at h
      exact ih s₁ s' (hstep s e s₁ hP hs) h

theorem countP_set {α : Type} (p : α → Bool) (g' : α) :
    ∀ (l : List α) (k : Nat) (g : α), l[k]? = some g →
      List.countP p (l.set k g') + (if p g then 1 else 0) =
        List.countP p l + (if p g' then 1 else 0) := by
  intro l
  induction l with
  | nil => intro k g h; simp at h
  | cons a t ih =>
    intro k g h
    cases k with
    | zero =>
      simp only [List.getElem?_cons_zero, Option.some.injEq] at h
      subst h
      simp only [List.set_cons_zero, List.countP_cons]
      omega
    | succ k =>
      simp only [List.getElem?_cons_succ] at h
      have := ih k g h
      simp only [List.set_cons_succ, List.countP_cons]
      omega

theorem executing_setG {s : State} {k : Nat} {g g' : Goroutine}
    (hg : s.goroutines[k]? = some g) (hh : g'.holdsSlot = g.holdsSlot) :
    (s.setG k g').executing = s.executing := by
  have := countP_set Goroutine.holdsSlot g' s.goroutines k g hg
  simp only [State.executing, State.setG]
  rw [hh] at this
  omega

theorem admitted_update {c : Int} {s s' : State} {k : Nat} {g g' : Goroutine}
    (h : Admitted c s) (hg : s.goroutines[k]? = some g) (hh : g'.holdsSlot = g.holdsSlot)
    (hgs : s'.goroutines = s.goroutines.set k g') (hsem : s'.semaphore = s.semaphore)
    (hmain : s'.main = s.main) : Admitted c s' := by
  have := countP_set Goroutine.holdsSlot g' s.goroutines k g hg
  rw [hh] at this
  unfold Admitted State.executing at *
  rw [hgs, hsem, hmain]
  refine ⟨?_, h.2⟩
  omega

theorem admitted_step (n c : Int) (env : Env) (s : State) (e : Event) (s' : State)
    (h : Admitted c s) (hs : step n c env s e = some s') : Admitted c s' := by
  cases e with
  | main =>
    obtain ⟨h1, h2⟩ := h
    simp only [step, stepMain] at hs
    cases hm : s.main <;> simp only [hm] at hs h1
    · split at hs
      all_goals
        simp only [Option.some.injEq] at hs
        subst hs
        simpa [Admitted, State.executing] using ⟨h1, h2⟩
    · split at hs
      · rename_i hlt
        simp only [Option.some.injEq] at hs; subst hs
        simp only [Admitted, State.executing] at *
        refine ⟨by simpa using h1, ?_⟩
        push_cast
        omega
      · simp at hs
    · simp only [Option.some.injEq] at hs; subst hs
      simp only [Admitted, State.executing] at *
      simp [List.countP_append, List.countP_cons, Goroutine.holdsSlot] at h1 ⊢
      exact ⟨by omega, by omega⟩
    · split at hs
      · simp only [Option.some.injEq] at hs; subst hs
        simpa [Admitted, State.executing] using ⟨h1, h2⟩
      · simp at hs
    · simp at hs
    · simp at hs
  | go k =>
    simp only [step, makeRequest.step] at hs
    cases hg : s.goroutines[k]? with
    | none => simp [hg] at hs
    | some g =>
      simp only [hg] at hs
      cases hpc : g.pc <;> simp only [hpc] at hs
      case request =>
        cases hn : env.net k <;> simp only [hn, Option.some.injEq] at hs <;> subst hs <;>
          exact admitted_update h hg (by simp [Goroutine.holdsSlot, hpc]) rfl rfl rfl
      case lock code =>
        split at hs
        · simp at hs
        · simp only [Option.some.injEq] at hs; subst hs
          exact admitted_update h hg (by simp [Goroutine.holdsSlot, hpc]) rfl rfl rfl
      case loadTotal code =>
        simp only [Option.some.injEq] at hs; subst hs
        exact admitted_update h hg (by simp [Goroutine.holdsSlot, hpc]) rfl rfl rfl
      case storeTotal code seen =>
        simp only [Option.some.injEq] at hs; subst hs
        exact admitted_update h hg (by simp [Goroutine.holdsSlot, hpc]) rfl rfl rfl
      case loadStatus code =>
        split at hs
        all_goals
          simp only [Option.some.injEq] at hs
          subst hs
          exact admitted_update h hg (by simp [Goroutine.holdsSlot, hpc]) rfl rfl rfl
      case storeStatus code seen =>
        split at hs
        all_goals
          simp only [Option.some.injEq] at hs
          subst hs
          exact admitted_update h hg (by simp [Goroutine.holdsSlot, hpc]) rfl rfl rfl
      case unlock =>
        simp only [Option.some.injEq] at hs; subst hs
        exact admitted_update h hg (by simp [Goroutine.holdsSlot, hpc]) rfl rfl rfl
      case receive =>
        split at hs
        · rename_i hpos
          simp only [Option.some.injEq] at hs; subst hs
          have := countP_set Goroutine.holdsSlot { g with pc := Pc.wgDone } s.goroutines k g hg
          simp only [Goroutine.holdsSlot, hpc] at this
          obtain ⟨h1, h2⟩ := h
          simp only [Admitted, State.executing, State.setG] at *
          simp only [Bool.false_eq_true, if_false, if_true] at this
          refine ⟨by omega, by omega⟩
        · simp at hs
      case wgDone =>
        simp only [Option.some.injEq] at hs; subst hs
        exact admitted_update h hg (by simp [Goroutine.holdsSlot, hpc]) rfl rfl rfl
      case exited => simp at hs
  | handoff k =>
    simp only [step] at hs
    cases hm : s.main <;> simp only [hm] at hs <;> try contradiction
    cases hg : s.goroutines[k]? with
    | none => simp [hg] at hs
    | some g =>
      simp only [hg] at hs
      split at hs
      · rename_i hc
        simp only [Option.some.injEq] at hs; subst hs
        have := countP_set Goroutine.holdsSlot { g with pc := Pc.wgDone } s.goroutines k g hg
        simp only [Goroutine.holdsSlot, hc.2] at this
        obtain ⟨h1, h2⟩ := h
        simp only [Admitted, State.executing, State.setG, hm] at *
        simp only [Bool.false_eq_true, if_false, if_true] at this
        simp at h1 ⊢
        refine ⟨by omega, by omega⟩
      · simp at hs

theorem admitted_init {c : Int} (hc : 0 ≤ c) : Admitted c (init c) := by
  unfold Admitted init State.executing
  have : ¬ c < 0 := by omega
  simp [this, hc]

theorem untouched_setG {s : State} {k : Nat} {g' : Goroutine} (h : Untouched s)
    (hg' : g'.pc.outside = true) : Untouched (s.setG k g') := by
  refine ⟨h.1, h.2.1, h.2.2.1, ?_⟩
  intro g hg
  rcases List.mem_or_eq_of_mem_set hg with hg | hg
  · exact h.2.2.2 g hg
  · exact hg ▸ hg'

theorem untouched_step (n c : Int) (env : Env) (hfail : ∀ k, (env.net k).failed = true)
    (s : State) (e : Event) (s' : State)
    (h : Untouched s) (hs : step n c env s e = some s') : Untouched s' := by
  cases e with
  | main =>
    obtain ⟨h1, h2, h3, h4⟩ := h
    simp only [step, stepMain] at hs
    cases hm : s.main <;> simp only [hm] at hs
    · split at hs
      all_goals
        simp only [Option.some.injEq] at hs
        subst hs
        exact ⟨h1, h2, h3, h4⟩
    · split at hs
      · simp only [Option.some.injEq] at hs; subst hs
        exact ⟨h1, h2, h3, h4⟩
      · simp at hs
    · simp only [Option.some.injEq] at hs; subst hs
      refine ⟨h1, h2, h3, ?_⟩
      intro g hg
      rcases List.mem_append.1 hg with hg | hg
      · exact h4 g hg
      · simp only [List.mem_singleton] at hg
        subst hg; rfl
    · split at hs
      · simp only [Option.some.injEq] at hs; subst hs
        exact ⟨h1, h2, h3, h4⟩
      · simp at hs
    · simp at hs
    · simp at hs
  | go k =>
    simp only [step, makeRequest.step] at hs
    cases hg : s.goroutines[k]? with
    | none => simp [hg] at hs
    | some g =>
      simp only [hg] at hs
      have hout := h.2.2.2 g (List.getElem?_mem hg)
      cases hpc : g.pc <;> simp only [hpc, Pc.outside] at hs hout <;> try (exact absurd hout (by decide))
      case request =>
        have hf := hfail k
        cases hn : env.net k <;> simp only [hn, Option.some.injEq, Attempt.failed] at hs hf
        · subst hs; exact untouched_setG h rfl
        · subst hs; exact untouched_setG h rfl
        · exact absurd hf (by decide)
      case receive =>
        split at hs
        · simp only [Option.some.injEq] at hs; subst hs
          exact untouched_setG (s := { s with semaphore := s.semaphore - 1 }) h rfl
        · simp at hs
      case wgDone =>
        simp only [Option.some.injEq] at hs; subst hs
        exact untouched_setG (s := { s with wg := s.wg - 1 }) h rfl
      case exited => simp at hs
  | handoff k =>
    simp only [step] at hs
    cases hm : s.main <;> simp only [hm] at hs <;> try contradiction
    cases hg : s.goroutines[k]? with
    | none => simp [hg] at hs
    | some g =>
      simp only [hg] at hs
      split at hs
      · simp only [Option.some.injEq] at hs; subst hs
        exact untouched_setG (s := { s with main := MainPc.spawn }) h rfl
      · simp at hs

theorem init_eq_idle {c : Int} (hc : 0 ≤ c) : init c = idleState Report.empty 0 := by
  have : ¬ c < 0 := by omega
  simp [init, idleState, this]

/-- The two embeddings of `makeRequest` agree: goroutine `k` run alone from its
start to its end, its attempt completing, changes the report exactly as the
function does, gives its slot back and signals the wait group. -/
theorem solo_ok (n c : Int) (env : Env) (s : State) (k : Nat) (code : Int)
    (hg : s.goroutines[k]? = some { pc := Pc.request, mutex := false })
    (hnet : env.net k = Attempt.completed code) (hsem : 0 < s.semaphore) :
    exec n c env s (soloOk k) =
      some { s with report := makeRequest (env.net k) s.report,
                    semaphore := s.semaphore - 1, wg := s.wg - 1,
                    goroutines := s.goroutines.set k { pc := Pc.exited, mutex := false } } := by
  have hk : k < s.goroutines.length := by
    rcases List.getElem?_eq_some_iff.1 hg with ⟨h, _⟩
    exact h
  have hget : ∀ g : Goroutine, (s.goroutines.set k g)[k]? = some g :=
    fun g => List.getElem?_set_self hk
  simp only [soloOk, List.replicate, exec, step, makeRequest.step, hg, hnet, State.setG, hget,
    List.set_set, Bool.false_eq_true, if_false]
  by_cases hc : code = StatusOK
  · simp [hc, hget, List.set_set, hsem, makeRequest, record]
  · simp [hc, hget, List.set_set, hsem, makeRequest, record]

/-- The same for an attempt that fails: the report is left as it was. -/
theorem solo_fail (n c : Int) (env : Env) (s : State) (k : Nat)
    (hg : s.goroutines[k]? = some { pc := Pc.request, mutex := false })
    (hnet : (env.net k).failed = true) (hsem : 0 < s.semaphore) :
    exec n c env s (soloFail k) =
      some { s with report := makeRequest (env.net k) s.report,
                    semaphore := s.semaphore - 1, wg := s.wg - 1,
                    goroutines := s.goroutines.set k { pc := Pc.exited, mutex := false } } := by
  have hk : k < s.goroutines.length := by
    rcases List.getElem?_eq_some_iff.1 hg with ⟨h, _⟩
    exact h
  have hget : ∀ g : Goroutine, (s.goroutines.set k g)[k]? = some g :=
    fun g => List.getElem?_set_self hk
  cases hn : env.net k with
  | getFailed =>
    simp [soloFail, List.replicate, exec, step, makeRequest.step, hg, hn, State.setG, hget,
      List.set_set, hsem, makeRequest]
  | readFailed code =>
    simp [soloFail, List.replicate, exec, step, makeRequest.step, hg, hn, State.setG, hget,
      List.set_set, hsem, makeRequest]
  | completed code => simp [hn, Attempt.failed] at hnet

theorem seq_round (n c : Int) (env : Env) (r : Report) (k : Nat)
    (hk : (k : Int) < n) (hc : 1 ≤ c) :
    exec n c env (idleState r k) ([Event.main, Event.main, Event.main] ++ soloOf env k) =
      some (idleState (makeRequest (env.net k) r) (k + 1)) := by
  have hc0 : (0 : Int) < c := by omega
  have hspawn : exec n c env (idleState r k) [Event.main, Event.main, Event.main] =
      some (spawnedState r k) := by
    simp [exec, step, stepMain, idleState, spawnedState, hk, hc0]
  have hget : (spawnedState r k).goroutines[k]? = some { pc := Pc.request, mutex := false } := by
    have := List.getElem?_concat_length
      (List.replicate k ({ pc := Pc.exited, mutex := false } : Goroutine))
      { pc := Pc.request, mutex := false }
    rw [List.length_replicate] at this
    exact this
  have hset : (spawnedState r k).goroutines.set k { pc := Pc.exited, mutex := false } =
      List.replicate (k + 1) { pc := Pc.exited, mutex := false } := by
    unfold spawnedState
    simp only
    rw [List.set_append_right k _ (by simp)]
    simp [List.replicate_succ']
  have hsem : 0 < (spawnedState r k).semaphore := Nat.zero_lt_one
  have hend : ∀ r' : Report,
      ({ spawnedState r k with
          report := r',
          semaphore := (spawnedState r k).semaphore - 1,
          wg := (spawnedState r k).wg - 1,
          goroutines := (spawnedState r k).goroutines.set k { pc := Pc.exited, mutex := false } } :
        State) = idleState r' (k + 1) := by
    intro r'
    rw [hset]
    simp only [spawnedState, idleState, State.mk.injEq, true_and]
    refine ⟨by decide, ?_, trivial⟩
    push_cast
    rfl
  rw [exec_append, hspawn]
  simp only [Option.bind]
  unfold soloOf
  cases hf : (env.net k).failed with
  | true =>
    rw [if_pos rfl, solo_fail n c env _ k hget hf hsem, hend]
    rfl
  | false =>
    obtain ⟨code, hcode⟩ : ∃ code, env.net k = Attempt.completed code := by
      cases hn : env.net k with
      | getFailed => simp [hn, Attempt.failed] at hf
      | readFailed _ => simp [hn, Attempt.failed] at hf
      | completed code => exact ⟨code, rfl⟩
    rw [if_neg (by simp), solo_ok n c env _ k code hget hcode hsem, hend]
    rfl

theorem outcomes_succ (env : Env) (k : Nat) : outcomes env (k + 1) = outcomes env k ++ [env.net k] := by
  simp [outcomes, List.range_succ]

theorem recordAll_append (as bs : List Attempt) (r : Report) :
    recordAll (as ++ bs) r = recordAll bs (recordAll as r) := by
  simp [recordAll, List.foldl_append]

/-- One attempt at a time, the dispatch computes `recordAll` of the outcomes. -/
theorem seq_schedule (n c : Int) (env : Env) (r : Report) (hc : 1 ≤ c) :
    ∀ k : Nat, (k : Int) ≤ n →
      exec n c env (idleState r 0) (seqSchedule env k) =
        some (idleState (recordAll (outcomes env k) r) k) := by
  intro k
  induction k with
  | zero => intro _; rfl
  | succ k ih =>
    intro hk
    have hk' : (k : Int) < n := by push_cast at hk; omega
    rw [seqSchedule, exec_append, ih (le_of_lt hk')]
    simp only [Option.bind]
    rw [seq_round n c env _ k hk' hc, outcomes_succ, recordAll_append]
    rfl

theorem recordAll_failed (as : List Attempt) (h : ∀ a ∈ as, a.failed = true) (r : Report) :
    recordAll as r = r := by
  induction as generalizing r with
  | nil => rfl
  | cons a t ih =>
    have ha := h a (List.mem_cons_self _ _)
    have e : makeRequest a r = r := by
      cases a with
      | getFailed => rfl
      | readFailed _ => rfl
      | completed _ => simp [Attempt.failed] at ha
    show recordAll t (makeRequest a r) = r
    rw [e]
    exact ih (fun b hb => h b (List.mem_cons_of_mem _ hb)) r

theorem idle_finish (n c : Int) (env : Env) (r : Report) (k : Nat) (hk : n ≤ (k : Int)) :
    exec n c env (idleState r k) [Event.main, Event.main] =
      some { idleState r k with report := { r with totalTime := env.elapsed },
                                main := MainPc.finished } := by
  have : ¬ ((k : Int) < n) := by omega
  simp [exec, step, stepMain, idleState, this]

theorem unbuffered_step (n : Int) (env : Env) (s : State) (e : Event) (s' : State)
    (h : s = init 0 ∨ s = blockedAtSend) (hs : step n 0 env s e = some s') :
    s' = init 0 ∨ s' = blockedAtSend ∨ (n ≤ 0 ∧ s'.goroutines = [] ∧ s'.report = Report.empty) := by
  rcases h with h | h
  · subst h
    cases e with
    | main =>
      by_cases hn : (0 : Int) < n
      · right; left
        simp [step, stepMain, init, hn] at hs
        rw [← hs]; rfl
      · right; right
        simp [step, stepMain, init, hn] at hs
        rw [← hs]
        exact ⟨by omega, rfl, rfl⟩
    | go k => simp [step, makeRequest.step, init] at hs
    | handoff k => simp [step, init] at hs
  · subst h
    cases e with
    | main => simp [step, stepMain, blockedAtSend] at hs
    | go k => simp [step, makeRequest.step, blockedAtSend] at hs
    | handoff k => simp [step, blockedAtSend] at hs

theorem unbuffered_stuck (n : Int) (hn : 0 < n) (env : Env) :
    ∀ (es : List Event) (s : State), run n 0 env es = some s → s = init 0 ∨ s = blockedAtSend := by
  intro es s h
  refine exec_induct n 0 env (fun s => s = init 0 ∨ s = blockedAtSend) ?_ es (init 0) s (Or.inl rfl) h
  intro s e s' hP hs
  rcases unbuffered_step n env s e s' hP hs with h | h | h
  · exact Or.inl h
  · exact Or.inr h
  · omega

/-- For `requests ≥ concurrency ≥ 1` the schedule that runs one attempt at a
time ends the run, and the report it prints is `recordAll` of the outcomes. -/
theorem seq_run (n c : Int) (env : Env) (hc : 1 ≤ c) (hn : c ≤ n) :
    run n c env (seqSchedule env n.toNat ++ [Event.main, Event.main]) =
      some { idleState (recordAll (outcomes env n.toNat) Report.empty) n.toNat with
        report := { recordAll (outcomes env n.toNat) Report.empty with totalTime := env.elapsed },
        main := MainPc.finished } := by
  have hk : ((n.toNat : Nat) : Int) = n := Int.toNat_of_nonneg (by omega)
  unfold run
  rw [init_eq_idle (by omega), exec_append,
    seq_schedule n c env Report.empty hc n.toNat (le_of_eq hk)]
  exact idle_finish n c env _ n.toNat (le_of_eq hk.symm)

/-! ## Properties of the specification -/

/-- C1: admission control. For every configuration with `requests ≥ concurrency ≥ 1`
and every state the dispatch can reach under any schedule, the number of
attempts that were started and have not yet released their slot is at most
`concurrency`. -/
theorem admission_control (requests concurrency : Int) (env : Env)
    (h1 : 1 ≤ concurrency) (_h2 : concurrency ≤ requests)
    (es : List Event) (s : State) (hrun : run requests concurrency env es = some s) :
    (s.executing : Int) ≤ concurrency := by
  have hinv : Admitted concurrency s :=
    exec_induct requests concurrency env (Admitted concurrency)
      (fun s e s' h hs => admitted_step requests concurrency env s e s' h hs)
      es (init concurrency) s (admitted_init (by omega)) hrun
  obtain ⟨ha, hb⟩ := hinv
  have : (s.executing : Int) ≤ (s.semaphore : Int) := by
    rw [ha]; push_cast; split <;> omega
  omega

/-- Witness of C1: with two requests and one slot, after the first goroutine
has been spawned and has sent its request one attempt is executing. -/
theorem admission_control_witness :
    ∃ s, run 2 1 env200 [Event.main, Event.main, Event.main, Event.go 0] = some s ∧
      s.executing = 1 ∧ (s.executing : Int) ≤ 1 :=
  ⟨_, rfl, by decide,
    admission_control 2 1 env200 (by decide) (by decide)
      [Event.main, Event.main, Event.main, Event.go 0] _ rfl⟩

/-- C2: recording one fully successful attempt with status code `s`, on a report
whose counter to be incremented is a Go `int` below the largest one. If
`s = 200`, `status200` grows by exactly 1 and `statusOther` is unchanged; if
`s ≠ 200`, the entry of `s` in `statusOther` grows by exactly 1 (from 0 when the
key was absent), every other key is unchanged and `status200` is unchanged. -/
theorem record_one_attempt (r : Report) (s : Int)
    (hOk : s = 200 → minInt ≤ r.status200 ∧ r.status200 < maxInt)
    (hOther : s ≠ 200 →
      minInt ≤ StatusMap.index r.statusOther s ∧ StatusMap.index r.statusOther s < maxInt) :
    (s = 200 →
      (makeRequest (Attempt.completed s) r).status200 = r.status200 + 1 ∧
      (makeRequest (Attempt.completed s) r).statusOther = r.statusOther) ∧
    (s ≠ 200 →
      StatusMap.get? (makeRequest (Attempt.completed s) r).statusOther s =
        some (StatusMap.index r.statusOther s + 1) ∧
      (StatusMap.get? r.statusOther s = none →
        StatusMap.get? (makeRequest (Attempt.completed s) r).statusOther s = some 1) ∧
      (∀ k, k ≠ s →
        StatusMap.get? (makeRequest (Attempt.completed s) r).statusOther k =
          StatusMap.get? r.statusOther k) ∧
      (makeRequest (Attempt.completed s) r).status200 = r.status200) := by
  refine ⟨?_, ?_⟩
  · intro hs
    have h := hOk hs
    subst hs
    simp [makeRequest, record, StatusOK, incr_of_range h.1 h.2]
  · intro hs
    have h := hOther hs
    have hs' : ¬ s = StatusOK := hs
    have hI := incr_of_range h.1 h.2
    refine ⟨?_, ?_, ?_, ?_⟩
    · simp [makeRequest, record_get?, hs', hI]
    · intro hnone
      have hidx : StatusMap.index r.statusOther s = 0 := by simp [StatusMap.index, hnone]
      rw [hidx] at hI
      simp [makeRequest, record_get?, hs', hI, hidx]
    · intro k hk
      simp [makeRequest, record_get?, hs', Ne.symm hk]
    · simp [makeRequest, (record_fields s r).2.1, hs']

/-- Witness of C2: a first 404 on the empty report. -/
theorem record_one_attempt_witness :
    StatusMap.get? (makeRequest (Attempt.completed 404) Report.empty).statusOther 404 = some 1 ∧
    (makeRequest (Attempt.completed 404) Report.empty).status200 = 0 :=
  have h := (record_one_attempt Report.empty 404 (by decide) (fun _ => by decide)).2 (by decide)
  ⟨h.2.1 rfl, h.2.2.2⟩

/-- C3: aggregation is order-independent. Recording the status codes of a list
one after another into the empty report gives the same `status200` and the
same `statusOther` mapping as recording any permutation of it; in particular
any order of 200, 404, 200, 500 gives `status200 = 2` and the mapping
404 ↦ 1, 500 ↦ 1. -/
theorem aggregation_order_independent (codes codes' : List Int) (hp : codes.Perm codes') :
    (recordAll (codes.map Attempt.completed) Report.empty).status200 =
      (recordAll (codes'.map Attempt.completed) Report.empty).status200 ∧
    (∀ k, StatusMap.get? (recordAll (codes.map Attempt.completed) Report.empty).statusOther k =
      StatusMap.get? (recordAll (codes'.map Attempt.completed) Report.empty).statusOther k) ∧
    (codes' = [200, 404, 200, 500] →
      (recordAll (codes.map Attempt.completed) Report.empty).status200 = 2 ∧
      ∀ k, StatusMap.get? (recordAll (codes.map Attempt.completed) Report.empty).statusOther k =
        if k = 404 then some 1 else if k = 500 then some 1 else none) := by
  have h := recordAll_perm (hp.map Attempt.completed) (same_refl Report.empty)
  refine ⟨h.2.1, h.2.2.1, ?_⟩
  intro hc
  subst hc
  have e : recordAll ([200, 404, 200, 500].map Attempt.completed) Report.empty =
      { totalRequests := 4, status200 := 2, statusOther := [(404, 1), (500, 1)], totalTime := 0 } := by
    decide
  rw [e] at h
  refine ⟨h.2.1, ?_⟩
  intro k
  rw [h.2.2.1 k]
  by_cases h4 : k = 404
  · subst h4; simp [StatusMap.get?]
  · by_cases h5 : k = 500
    · subst h5; simp [StatusMap.get?]
    · simp [StatusMap.get?, h4, h5, Ne.symm h4, Ne.symm h5]

/-- Witness of C3: the order 500, 200, 404, 200. -/
theorem aggregation_order_independent_witness :
    (recordAll ([500, 200, 404, 200].map Attempt.completed) Report.empty).status200 = 2 ∧
    StatusMap.get? (recordAll ([500, 200, 404, 200].map Attempt.completed) Report.empty).statusOther 404
      = some 1 :=
  have h := (aggregation_order_independent [500, 200, 404, 200] [200, 404, 200, 500]
    (by decide)).2.2 rfl
  ⟨h.1, h.2 404⟩

/-- C4, evaluated on the code: with `requests = 2`, `concurrency = 2` and both
attempts completing with status 200, the schedule `raceSchedule2` ends the run
with `status200` plus the sum of `statusOther` equal to 1, not 2, although no
attempt failed: both goroutines read `status200 = 0` before either writes. -/
theorem lost_update_breaks_sum :
    ∃ s, run 2 2 env200 raceSchedule2 = some s ∧ s.main = MainPc.finished ∧
      (∀ k, (env200.net k).failed = false) ∧
      s.report.status200 + StatusMap.total s.report.statusOther = 1 ∧
      s.report.status200 + StatusMap.total s.report.statusOther < 2 :=
  ⟨_, rfl, by decide, fun _ => rfl, by decide, by decide⟩

/-- C5, evaluated on the code: the mutex of line 111 is a local variable of each
call, so `Lock` never waits for another goroutine, and with two attempts
admitted the schedule `overlapSchedule` reaches a state in which both are
between `Lock` and `Unlock`, each holding its own mutex. -/
theorem update_sections_overlap :
    (∀ (env : Env) (s : State) (k : Nat) (code : Int),
      s.goroutines[k]? = some { pc := Pc.lock code, mutex := false } →
      makeRequest.step env s k = some (s.setG k { pc := Pc.loadTotal code, mutex := true })) ∧
    ∃ s g₀ g₁, run 2 2 env200 overlapSchedule = some s ∧ s.goroutines = [g₀, g₁] ∧
      g₀.inUpdate = true ∧ g₁.inUpdate = true ∧ g₀.mutex = true ∧ g₁.mutex = true :=
  ⟨fun env s k code h => by simp [makeRequest.step, h],
    _, _, _, rfl, rfl, by decide, by decide, by decide, by decide⟩

/-- C6, as amended: validation before the run. `PreRun` rejects (message and
help printed, exit code 1, `processStressTest` not called) if and only if the
url is empty or `requests < concurrency`. A command line that passes `PreRun`
reaches `processStressTest`, with the three values, exactly when `--requests`
was given on it; otherwise the check of the flag group of line 55 ends the run
with exit code 1. In particular `requests = 5, concurrency = 10` is rejected,
an absent or empty url is rejected, and a non-empty url with
`requests = concurrency`, both given, is accepted. -/
theorem validation_gates (c : Config) (f : Flags) (u : String) (n : Int) :
    ((∃ msg, PreRun c = some (Command.exit msg true 1)) ↔
      (c.url = "" ∨ c.requests < c.concurrency)) ∧
    (PreRun c = none ↔ ¬ (c.url = "" ∨ c.requests < c.concurrency)) ∧
    ((∃ msg, Execute f = Command.exit msg true 1) ↔
      (f.vars.url = "" ∨ f.vars.requests < f.vars.concurrency)) ∧
    (Execute f = Command.processStressTest f.vars.url f.vars.requests f.vars.concurrency ↔
      ¬ (f.vars.url = "" ∨ f.vars.requests < f.vars.concurrency) ∧ f.requests.isSome = true) ∧
    (Execute f = Command.flagGroupError ["requests"] 1 ↔
      ¬ (f.vars.url = "" ∨ f.vars.requests < f.vars.concurrency) ∧ f.requests.isSome = false) ∧
    (∃ msg, Execute { url := some u, requests := some 5, concurrency := some 10 } =
      Command.exit msg true 1) ∧
    (∃ msg, Execute { url := none, requests := f.requests, concurrency := f.concurrency } =
      Command.exit msg true 1) ∧
    (∃ msg, Execute { url := some "", requests := f.requests, concurrency := f.concurrency } =
      Command.exit msg true 1) ∧
    (u ≠ "" → Execute { url := some u, requests := some n, concurrency := some n } =
      Command.processStressTest u n n) := by
  have hpre : ∀ c : Config, ¬ (c.url = "" ∨ c.requests < c.concurrency) → PreRun c = none := by
    intro c h
    have h1 : ¬ c.url = "" := fun e => h (Or.inl e)
    have h2 : ¬ c.requests < c.concurrency := fun e => h (Or.inr e)
    simp [PreRun, h1, h2]
  have hrej : ∀ c : Config, (c.url = "" ∨ c.requests < c.concurrency) →
      ∃ msg, PreRun c = some (Command.exit msg true 1) := by
    intro c h
    by_cases h1 : c.url = ""
    · exact ⟨"URL is required", by simp [PreRun, h1]⟩
    · have h2 : c.requests < c.concurrency := h.resolve_left h1
      exact ⟨"Number of requests should be greater than concurrency", by simp [PreRun, h1, h2]⟩
  have hurl : ∀ f : Flags, f.vars.url ≠ "" → ∃ v, f.url = some v := by
    intro f h
    cases hu : f.url with
    | none => simp [Flags.vars, hu] at h
    | some v => exact ⟨v, rfl⟩
  refine ⟨⟨?_, hrej c⟩, ⟨?_, hpre c⟩, ⟨?_, ?_⟩, ⟨?_, ?_⟩, ⟨?_, ?_⟩, ?_, ?_, ?_, ?_⟩
  · rintro ⟨msg, h⟩
    by_contra hn
    simp [hpre c hn] at h
  · intro h hn
    obtain ⟨msg, hm⟩ := hrej c hn
    simp [hm] at h
  · rintro ⟨msg, h⟩
    by_contra hn
    have hp := hpre f.vars hn
    obtain ⟨v, hv⟩ := hurl f (fun e => hn (Or.inl e))
    cases hr : f.requests <;> simp [Execute, hp, missingTogether, hv, hr, Run] at h
  · intro h
    obtain ⟨msg, hm⟩ := hrej f.vars h
    exact ⟨msg, by simp [Execute, hm]⟩
  · intro h
    by_cases hn : f.vars.url = "" ∨ f.vars.requests < f.vars.concurrency
    · obtain ⟨msg, hm⟩ := hrej f.vars hn
      simp [Execute, hm] at h
    · refine ⟨hn, ?_⟩
      have hp := hpre f.vars hn
      obtain ⟨v, hv⟩ := hurl f (fun e => hn (Or.inl e))
      cases hr : f.requests with
      | none => simp [Execute, hp, missingTogether, hv, hr] at h
      | some r => rfl
  · rintro ⟨hn, hs⟩
    have hp := hpre f.vars hn
    obtain ⟨v, hv⟩ := hurl f (fun e => hn (Or.inl e))
    cases hr : f.requests with
    | none => simp [hr] at hs
    | some r => simp [Execute, hp, missingTogether, hv, hr, Run]
  · intro h
    by_cases hn : f.vars.url = "" ∨ f.vars.requests < f.vars.concurrency
    · obtain ⟨msg, hm⟩ := hrej f.vars hn
      simp [Execute, hm] at h
    · refine ⟨hn, ?_⟩
      have hp := hpre f.vars hn
      obtain ⟨v, hv⟩ := hurl f (fun e => hn (Or.inl e))
      cases hr : f.requests with
      | none => rfl
      | some r => simp [Execute, hp, missingTogether, hv, hr, Run] at h
  · rintro ⟨hn, hs⟩
    have hp := hpre f.vars hn
    obtain ⟨v, hv⟩ := hurl f (fun e => hn (Or.inl e))
    cases hr : f.requests with
    | none => simp [Execute, hp, missingTogether, hv, hr]
    | some r => simp [hr] at hs
  · have h510 : (5 : Int) < 10 := by decide
    obtain ⟨msg, hm⟩ := hrej { url := u, requests := 5, concurrency := 10 } (Or.inr h510)
    exact ⟨msg, by simp [Execute, Flags.vars, hm]⟩
  · exact ⟨"URL is required", by simp [Execute, Flags.vars, PreRun]⟩
  · exact ⟨"URL is required", by simp [Execute, Flags.vars, PreRun]⟩
  · intro hu
    have hp := hpre { url := u, requests := n, concurrency := n }
      (by simp only [not_or, lt_self_iff_false, not_false_eq_true, and_true]; exact hu)
    simp [Execute, Flags.vars, hp, missingTogether, Run]

/-- C6 as stated fails: with `--url http://localhost:8080` alone the variables
are the url, 10 and 1, the url is not empty and `requests ≥ concurrency`, yet
the run is rejected with exit code 1 and `processStressTest` is not called; the
same with `--url http://localhost:8080 --concurrency 10`, where the url is not
empty and `requests = concurrency`. -/
theorem url_alone_rejected :
    Flags.vars { url := some "http://localhost:8080", requests := none, concurrency := none } =
      { url := "http://localhost:8080", requests := 10, concurrency := 1 } ∧
    ¬ (("http://localhost:8080" : String) = "" ∨ (10 : Int) < 1) ∧
    PreRun { url := "http://localhost:8080", requests := 10, concurrency := 1 } = none ∧
    Execute { url := some "http://localhost:8080", requests := none, concurrency := none } =
      Command.flagGroupError ["requests"] 1 ∧
    Flags.vars { url := some "http://localhost:8080", requests := none, concurrency := some 10 } =
      { url := "http://localhost:8080", requests := 10, concurrency := 10 } ∧
    Execute { url := some "http://localhost:8080", requests := none, concurrency := some 10 } =
      Command.flagGroupError ["requests"] 1 := by
  decide

/-- C7, evaluated on the code: with all three flags given, `PreRun` lets
`concurrency = 0` pass with `requests = 5` and with `requests = 0`, and
`concurrency = -1` with `requests = 5`, and `processStressTest` is called. With
`requests = 5` and `concurrency = 0` every schedule leaves the main goroutine at
the loop test or blocked at the send of line 78, with no goroutine spawned and
no event enabled once it is blocked; with `concurrency = -1` the creation of
the channel panics. -/
theorem concurrency_not_validated :
    PreRun { url := "http://localhost:8080", requests := 5, concurrency := 0 } = none ∧
    Execute { url := some "http://localhost:8080", requests := some 5, concurrency := some 0 } =
      Command.processStressTest "http://localhost:8080" 5 0 ∧
    PreRun { url := "http://localhost:8080", requests := 0, concurrency := 0 } = none ∧
    Execute { url := some "http://localhost:8080", requests := some 0, concurrency := some 0 } =
      Command.processStressTest "http://localhost:8080" 0 0 ∧
    PreRun { url := "http://localhost:8080", requests := 5, concurrency := -1 } = none ∧
    Execute { url := some "http://localhost:8080", requests := some 5, concurrency := some (-1) } =
      Command.processStressTest "http://localhost:8080" 5 (-1) ∧
    (∀ (env : Env) (es : List Event) (s : State), run 5 0 env es = some s →
      s.main ≠ MainPc.finished ∧ s.goroutines = []) ∧
    (∀ (env : Env), run 5 0 env [Event.main] = some blockedAtSend) ∧
    (∀ (env : Env) (e : Event), step 5 0 env blockedAtSend e = none) ∧
    (init (-1)).main = MainPc.panicked ∧
    (∀ (env : Env) (e : Event), step 5 (-1) env (init (-1)) e = none) := by
  refine ⟨by decide, by decide, by decide, by decide, by decide, by decide, ?_, fun _ => rfl, ?_,
    by decide, ?_⟩
  · intro env es s h
    rcases unbuffered_stuck 5 (by decide) env es s h with h | h <;> subst h <;>
      exact ⟨by decide, rfl⟩
  · intro env e
    cases e <;> simp [step, stepMain, makeRequest.step, blockedAtSend]
  · intro env e
    cases e <;> simp [step, stepMain, makeRequest.step, init]

set_option maxRecDepth 100000 in
/-- C8, evaluated on the code: with `requests = 20`, `concurrency = 4` and every
attempt completing with status 200, the schedule `raceSchedule20` starts and
ends all twenty goroutines and ends the run with `status200 = 19`. -/
theorem lost_update_run20 :
    ∃ s, run 20 4 env200 raceSchedule20 = some s ∧ s.main = MainPc.finished ∧
      s.goroutines = List.replicate 20 { pc := Pc.exited, mutex := false } ∧
      s.report.status200 = 19 ∧ s.report.statusOther = [] :=
  ⟨_, rfl, by decide, by decide, by decide, by decide⟩

/-- C9: a failed attempt records nothing. When the GET fails at transport level
or reading the body fails, the report after `makeRequest` equals the report
before it. Consequently, when every attempt fails, in every state of every
schedule of a run `totalRequests` and `status200` are 0 and `statusOther` is
empty, and for `requests ≥ concurrency ≥ 1` some schedule ends the run. -/
theorem failed_attempt_records_nothing :
    (∀ r : Report, makeRequest Attempt.getFailed r = r) ∧
    (∀ (r : Report) (code : Int), makeRequest (Attempt.readFailed code) r = r) ∧
    (∀ (requests concurrency : Int) (env : Env), (∀ k, (env.net k).failed = true) →
      (∀ (es : List Event) (s : State), run requests concurrency env es = some s →
        s.report.totalRequests = 0 ∧ s.report.status200 = 0 ∧ s.report.statusOther = []) ∧
      (1 ≤ concurrency → concurrency ≤ requests →
        ∃ es s, run requests concurrency env es = some s ∧ s.main = MainPc.finished ∧
          s.report.totalRequests = 0 ∧ s.report.status200 = 0 ∧ s.report.statusOther = [])) := by
  refine ⟨fun _ => rfl, fun _ _ => rfl, ?_⟩
  intro n c env hf
  refine ⟨?_, ?_⟩
  · intro es s h
    have hu : Untouched s :=
      exec_induct n c env Untouched (untouched_step n c env hf) es (init c) s
        ⟨rfl, rfl, rfl, by simp [init]⟩ h
    exact ⟨hu.1, hu.2.1, hu.2.2.1⟩
  · intro hc hn
    have hall : recordAll (outcomes env n.toNat) Report.empty = Report.empty :=
      recordAll_failed _ (fun a ha => by
        obtain ⟨j, _, hj⟩ := List.mem_map.1 ha
        exact hj ▸ hf j) _
    refine ⟨seqSchedule env n.toNat ++ [Event.main, Event.main], _, seq_run n c env hc hn, ?_⟩
    simp only [hall]
    exact ⟨trivial, rfl, rfl, rfl⟩

/-- Witness of C9: three requests, two slots, the network down; the schedule
that runs one attempt at a time ends the run with nothing recorded. -/
theorem failed_attempt_records_nothing_witness :
    ∃ s, run 3 2 envDown (seqSchedule envDown 3 ++ [Event.main, Event.main]) = some s ∧
      s.main = MainPc.finished ∧
      s.report.totalRequests = 0 ∧ s.report.status200 = 0 ∧ s.report.statusOther = [] :=
  ⟨_, rfl, by decide,
    (failed_attempt_records_nothing.2.2 3 2 envDown (fun _ => rfl)).1
      (seqSchedule envDown 3 ++ [Event.main, Event.main]) _ rfl⟩

/-- C10: report consistency. Starting from the empty report and after any
sequence of attempt outcomes applied one call at a time (the number of
attempts being a Go `int`), the total that `printReport` prints equals
`status200` plus the sum of the values of `statusOther`, `statusOther` does not
contain the key 200, and every value stored in `statusOther` is at least 1. -/
theorem report_consistency (as : List Attempt) (hlen : (as.length : Int) ≤ maxInt) :
    Line.total ((recordAll as Report.empty).status200 +
        StatusMap.total (recordAll as Report.empty).statusOther)
      ∈ printReport (recordAll as Report.empty) ∧
    (recordAll as Report.empty).totalRequests =
      (recordAll as Report.empty).status200 + StatusMap.total (recordAll as Report.empty).statusOther ∧
    (200 : Int) ∉ StatusMap.keys (recordAll as Report.empty).statusOther ∧
    StatusMap.get? (recordAll as Report.empty).statusOther 200 = none ∧
    ∀ e ∈ (recordAll as Report.empty).statusOther, 1 ≤ e.2 := by
  have h := (recordAll_counted as counted_empty (by omega)).1
  refine ⟨?_, h.total_eq, h.no_ok_key, (StatusMap.get?_eq_none_iff _ _).2 h.no_ok_key, h.values_pos⟩
  rw [← h.total_eq]
  simp [printReport]

/-- Witness of C10: five attempts, two of them failed. -/
theorem report_consistency_witness :
    (recordAll [Attempt.completed 200, Attempt.getFailed, Attempt.completed 404,
        Attempt.completed 404, Attempt.readFailed 500] Report.empty).totalRequests = 3 ∧
    Line.total 3 ∈ printReport (recordAll [Attempt.completed 200, Attempt.getFailed,
        Attempt.completed 404, Attempt.completed 404, Attempt.readFailed 500] Report.empty) :=
  ⟨by decide,
    (report_consistency [Attempt.completed 200, Attempt.getFailed, Attempt.completed 404,
        Attempt.completed 404, Attempt.readFailed 500] (by decide)).1⟩

end StressTest
